import Mathlib

/-! # play-go-read-modfile: a shallow embedding of `main.go`

The program fetches a `go.mod` page from a code-hosting front end, extracts the
file's lines from the JSON page data, parses them with `modfile.Parse` and prints
the language version and the required module paths, each with a trailing
major-version segment removed.

Go strings are modelled by `String` (the separators and the pattern of the
program are ASCII, so working on characters or on bytes gives the same result),
a `[]byte` or `[]string` value by an `Option` whose `none` is the nil slice, and a
call that may panic by `Result`.
-/

namespace ModFile

/-! ## Go values -/

/-- Outcome of a call: it returns a value or it panics. -/
inductive Result (α : Type) where
  | ret (a : α)
  | panic (msg : String)
  deriving DecidableEq, Repr

/-! ## The library functions used by `ReplacePathVersion` -/

/-- The pieces of `s` between the occurrences of the character `sep`. -/
def splitChars (sep : Char) : List Char → List (List Char)
  | [] => [[]]
  | c :: cs =>
    if c = sep then [] :: splitChars sep cs
    else
      match splitChars sep cs with
      | [] => [[c]]
      | h :: t => (c :: h) :: t

/-- Go's `strings.Split(s, sep)` for a separator of one character, which is how the
program calls it (`"/"`): one more piece than there are separators in `s`. -/
def Split (s : String) (sep : Char) : List String :=
  (splitChars sep s.data).map String.mk

/-- Go's `strings.Join(elems, sep)`: the elements with `sep` between each adjacent
pair. -/
def Join : List String → String → String
  | [], _ => ""
  | [a], _ => a
  | a :: b :: rest, sep => a ++ sep ++ Join (b :: rest) sep

/-- The slice expression `s[:high]`. It panics when `high` is negative or exceeds the
bound. Go's bound is the capacity, which is at least the length; the program only
writes `ss[:len(ss)-1]`, which is below the length whenever it is not negative. -/
def sliceTo {α : Type} (s : List α) (high : Int) : Result (List α) :=
  if 0 ≤ high ∧ high ≤ (s.length : Int) then .ret (s.take high.toNat)
  else .panic "slice bounds out of range"

/-- The regular expressions the program needs, as syntax trees (RE2 syntax as
accepted by Go's `regexp`). -/
inductive Regexp where
  /-- a literal character -/
  | lit (c : Char)
  /-- the class `\d`, the ASCII digits `0` to `9` -/
  | digit
  /-- concatenation -/
  | cat (a b : Regexp)
  /-- one or more repetitions, `a+` -/
  | plus (a : Regexp)
  /-- a capturing group `(a)` -/
  | capture (a : Regexp)
  /-- the assertion `$` without the `m` flag: the end of the text -/
  | endText
  deriving DecidableEq, Repr

/-- The remainders left by `n` or fewer, and at least one, successive matches of a
sub-expression whose remainders are given by `f`. -/
def plusEnds (f : List Char → List (List Char)) : Nat → List Char → List (List Char)
  | 0, _ => []
  | n + 1, s => (f s).flatMap fun r => r :: plusEnds f n r

/-- All the ways `re` matches at the start of `s`: the list of what remains of `s`
after each match. A repetition is unfolded at most `s.length + 1` times, which
covers every match since iterations that consume nothing add no remainder. -/
def Regexp.ends : Regexp → List Char → List (List Char)
  | .lit _, [] => []
  | .lit c, x :: xs => if x = c then [xs] else []
  | .digit, [] => []
  | .digit, x :: xs => if x.isDigit then [xs] else []
  | .cat a b, s => (a.ends s).flatMap b.ends
  | .plus a, s => plusEnds a.ends (s.length + 1) s
  | .capture a, s => a.ends s
  | .endText, s => if s = [] then [[]] else []

/-- Go's `regexp.MatchString(pattern, s)` for a pattern that compiles to `re`:
whether `s` contains a match, starting anywhere. -/
def MatchString (re : Regexp) (s : String) : Bool :=
  s.data.tails.any fun t => !(re.ends t).isEmpty

/-- The pattern `(/v\d+)$` of `ReplacePathVersion`. -/
def versionPattern : Regexp :=
  .cat (.capture (.cat (.lit '/') (.cat (.lit 'v') (.plus .digit)))) .endText

/-! ## `ReplacePathVersion` -/

/-- The function `ReplacePathVersion` of main.go (lines 35-42). -/
def ReplacePathVersion (path : String) : Result String :=
  if MatchString versionPattern path then
    let ss := Split path '/'
    match sliceTo ss ((ss.length : Int) - 1) with
    | .ret init => .ret (Join init "/")
    | .panic msg => .panic msg
  else .ret path

/-! ## Errors -/

/-- An error value made by a library (net/http, io, encoding/json, modfile); `text` is
what its `Error()` method returns. -/
structure LibError where
  text : String
  deriving DecidableEq, Repr

/-- Go `error` values that reach the program, told apart by where they were made: a
value made by `errors.New` in main.go is never identical to one a library returns. -/
inductive error where
  | New (text : String)
  | lib (e : LibError)
  deriving DecidableEq, Repr

/-- The method `Error()`. -/
def error.Error : error → String
  | .New text => text
  | .lib e => e.text

/-! ## `GithubResponseBody` and `GithubJSONParser` -/

/-- The struct of the field `blob` (main.go, lines 118-214). Only `RawLines` is
recorded: the program reads no other field. `none` is the nil slice. -/
structure BlobFields where
  RawLines : Option (List String)
  deriving DecidableEq, Repr

/-- The struct of the field `payload` (main.go, lines 78-224), reduced to `Blob`. -/
structure PayloadFields where
  Blob : BlobFields
  deriving DecidableEq, Repr

/-- The type `GithubResponseBody` (main.go, lines 77-226), reduced to `Payload`. -/
structure GithubResponseBody where
  Payload : PayloadFields
  deriving DecidableEq, Repr

/-- The function `GithubJSONParser` of main.go (lines 65-75). `Decode r` stands for
`json.NewDecoder(r).Decode(&body)`: the error, or the decoded `body`. The result is
the Go pair `([]byte, error)`. -/
def GithubJSONParser {R : Type} (Decode : R → Except LibError GithubResponseBody) (r : R) :
    Option String × Option error :=
  match Decode r with
  | .error err => (none, some (.lib err))
  | .ok body =>
    let rawLines := body.Payload.Blob.RawLines
    match rawLines with
    | none => (none, some (.New "empty content"))
    | some lines => (some (Join lines "\n"), none)

/-! ## A model of `encoding/json` decoding into `GithubResponseBody` -/

/-- A JSON value as the decoder's scanner delivers it. -/
inductive JSON where
  | null
  | bool (b : Bool)
  | number (literal : String)
  | string (s : String)
  | array (elems : List JSON)
  | object (members : List (String × JSON))

/-- The name `encoding/json` gives to the kind of a JSON value in an
`UnmarshalTypeError`. -/
def JSON.Value : JSON → String
  | .null => "null"
  | .bool _ => "bool"
  | .number _ => "number"
  | .string _ => "string"
  | .array _ => "array"
  | .object _ => "object"

/-- The three struct types on the way to `rawLines`. -/
inductive Level where
  | top
  | payload
  | blob
  deriving DecidableEq, Repr

/-- What the decoder takes from outside main.go. -/
structure JSONLib where
  /-- the case folding of `encoding/json`: a key names a field when the two are
  equal, or equal after folding -/
  foldName : String → String
  /-- the decoding of the member `key: value` of the struct at `level` when `key`
  does not name the field on the way to `rawLines`: `none` when the key is unknown
  (the member is skipped) or its field takes the value, the error otherwise -/
  other : Level → String → JSON → Option LibError
  /-- the `*json.UnmarshalTypeError` for a JSON value of kind `Value` met at the
  field `Field` -/
  typeError : (Value : String) → (Field : String) → LibError

/-- Whether the object key `key` selects the struct field with JSON name `name`. -/
def JSONLib.names (lib : JSONLib) (name key : String) : Bool :=
  key == name || lib.foldName key == lib.foldName name

/-- The decoder's `saveError`: the first error is kept. -/
def saveError (saved : Option LibError) (e : Option LibError) : Option LibError :=
  match saved with
  | some s => some s
  | none => e

/-- A `[]string` while it is decoded into: its backing array and its length. -/
structure StringSlice where
  backing : List String
  len : Nat
  deriving DecidableEq, Repr

/-- The elements of a slice. -/
def StringSlice.elems (s : StringSlice) : List String := s.backing.take s.len

/-- Decoding a JSON value into a `string` that holds `cur`: `null` leaves it as it
is, a JSON string is stored, anything else is a type error. -/
def decodeString (lib : JSONLib) (field : String) (cur : String) (v : JSON)
    (saved : Option LibError) : String × Option LibError :=
  match v with
  | .null => (cur, saved)
  | .string s => (s, saved)
  | v => (cur, saveError saved (some (lib.typeError v.Value field)))

/-- Decoding the elements of a JSON array into the slots of a backing array, slot by
slot, a slot past the end being a fresh empty string. -/
def decodeElems (lib : JSONLib) (field : String) :
    List JSON → List String → Option LibError → List String × Option LibError
  | [], backing, saved => (backing, saved)
  | e :: es, backing, saved =>
    let first := decodeString lib field (backing.headD "") e saved
    let rest := decodeElems lib field es backing.tail first.2
    (first.1 :: rest.1, rest.2)

/-- Decoding a JSON value into the field `RawLines []string`: `null` makes it nil, an
array is decoded element by element and the slice cut to the array's length (an
empty array gives a fresh empty slice), anything else is a type error. -/
def decodeRawLines (lib : JSONLib) (cur : Option StringSlice) (v : JSON)
    (saved : Option LibError) : Option StringSlice × Option LibError :=
  match v with
  | .null => (none, saved)
  | .array [] => (some ⟨[], 0⟩, saved)
  | .array (e :: es) =>
    let backing := match cur with
      | none => []
      | some s => s.backing
    let r := decodeElems lib "payload.blob.rawLines" (e :: es) backing saved
    (some ⟨r.1, (e :: es).length⟩, r.2)
  | v => (cur, saveError saved (some (lib.typeError v.Value "payload.blob.rawLines")))

/-- The way a value is decoded into a field: from the slice `RawLines` holds, the JSON
value and the error saved so far, to the new slice and saved error. -/
abbrev Store := Option StringSlice → JSON → Option LibError → Option StringSlice × Option LibError

/-- Decoding the members of a JSON object into the struct at `level`, in order: a
member whose key selects the field `name` is decoded into it by `field`, any other
member is left to `lib.other`. -/
def decodeMembers (lib : JSONLib) (level : Level) (name : String) (field : Store) :
    List (String × JSON) → Option StringSlice → Option LibError →
      Option StringSlice × Option LibError
  | [], cur, saved => (cur, saved)
  | (key, v) :: ms, cur, saved =>
    if lib.names name key then
      let r := field cur v saved
      decodeMembers lib level name field ms r.1 r.2
    else decodeMembers lib level name field ms cur (saveError saved (lib.other level key v))

/-- Decoding a JSON value into the struct at `level`, itself the field `path`: `null`
changes nothing, an object is decoded member by member, anything else is a type
error. -/
def decodeStruct (lib : JSONLib) (level : Level) (path name : String) (field : Store) : Store :=
  fun cur v saved =>
    match v with
    | .null => (cur, saved)
    | .object ms => decodeMembers lib level name field ms cur saved
    | v => (cur, saveError saved (some (lib.typeError v.Value path)))

/-- Decoding a JSON value into the struct field `Blob`. -/
def decodeBlob (lib : JSONLib) : Store :=
  decodeStruct lib .blob "payload.blob" "rawLines" (decodeRawLines lib)

/-- Decoding a JSON value into the struct field `Payload`. -/
def decodePayload (lib : JSONLib) : Store :=
  decodeStruct lib .payload "payload" "blob" (decodeBlob lib)

/-- Decoding a JSON value into a `GithubResponseBody`. -/
def decodeBody (lib : JSONLib) : Store :=
  decodeStruct lib .top "" "payload" (decodePayload lib)

/-- The call `json.NewDecoder(r).Decode(&body)` on a zero `body`. The stream `r` is
given by what the scanner makes of it: the error that stops it (a syntax error, an
error of the underlying reader, end of input) or its first JSON value. A type error
does not stop the decoding; the first one is returned at the end. -/
def Decode (lib : JSONLib) (r : Except LibError JSON) : Except LibError GithubResponseBody :=
  match r with
  | .error e => .error e
  | .ok doc =>
    match decodeBody lib none doc none with
    | (_, some e) => .error e
    | (rawLines, none) => .ok ⟨⟨⟨rawLines.map StringSlice.elems⟩⟩⟩

/-- The members of a JSON value given for a struct: those of an object, none for
`null`; `none` for a value a struct cannot take. -/
def JSON.members : JSON → Option (List (String × JSON))
  | .null => some []
  | .object ms => some ms
  | _ => none

/-- The values of the members of `ms` whose key selects the field `name`. -/
def fieldValues (lib : JSONLib) (name : String) (ms : List (String × JSON)) : List JSON :=
  (ms.filter fun m => lib.names name m.1).map Prod.snd

/-- Whether a JSON value is one `RawLines []string` takes without error: `null`, or an
array of strings and `null`s. -/
def JSON.fitsRawLines : JSON → Bool
  | .null => true
  | .array es => es.all fun e =>
    match e with
    | .null => true
    | .string _ => true
    | _ => false
  | _ => false

/-- A document in which `payload.blob.rawLines` is missing or null: the document,
each `payload` in it and each `blob` in these is null or an object, and every
`rawLines` reached this way is null. -/
def RawLinesMissingOrNull (lib : JSONLib) (doc : JSON) : Prop :=
  ∃ top, doc.members = some top ∧ ∀ p ∈ fieldValues lib "payload" top,
    ∃ pm, p.members = some pm ∧ ∀ b ∈ fieldValues lib "blob" pm,
      ∃ bm, b.members = some bm ∧ ∀ l ∈ fieldValues lib "rawLines" bm, l = JSON.null

/-- A document in which `payload.blob.rawLines`, or a struct on the way to it, has
another JSON type: the document, a `payload` or a `blob` is neither null nor an
object, or a `rawLines` is neither null nor an array of strings. -/
def RawLinesOfOtherType (lib : JSONLib) (doc : JSON) : Prop :=
  doc.members = none ∨ ∃ top, doc.members = some top ∧ ∃ p ∈ fieldValues lib "payload" top,
    p.members = none ∨ ∃ pm, p.members = some pm ∧ ∃ b ∈ fieldValues lib "blob" pm,
      b.members = none ∨ ∃ bm, b.members = some bm ∧ ∃ l ∈ fieldValues lib "rawLines" bm,
        l.fitsRawLines = false

/-- A decoding environment for examples: ASCII case folding, no error from the
fields outside `payload.blob.rawLines`. -/
def plainJSON : JSONLib where
  foldName := fun s => ⟨s.data.map Char.toLower⟩
  other := fun _ _ _ => none
  typeError := fun v f => ⟨"json: cannot unmarshal " ++ v ++ " into Go struct field " ++ f⟩

/-! ## `RetrieveModFile` -/

/-- An `*http.Request`, as far as the program sets it. -/
structure Request where
  Method : String
  URL : String
  Header : List (String × String)
  deriving DecidableEq, Repr

/-- The type `func(io.Reader) ([]byte, error)` of a parser; a call may panic. -/
abbrev Parser (R : Type) := R → Result (Option String × Option error)

/-- The library calls of the program, over a type `R` of response bodies. -/
structure Lib (R : Type) where
  /-- the call `http.NewRequest(method, url, nil)` -/
  NewRequest : String → String → Except LibError Request
  /-- the call `http.DefaultClient.Do(req)`, giving the response body -/
  Do : Request → Except LibError R
  /-- the call `io.ReadAll(r)`: what was read, and the error that stopped it if any -/
  ReadAll : R → String × Option LibError
  /-- the call `json.NewDecoder(r).Decode(&body)` on a zero `body` -/
  Decode : R → Except LibError GithubResponseBody

/-- The function `io.ReadAll` as a parser. -/
def Lib.readAll {R : Type} (L : Lib R) : Parser R := fun r =>
  .ret (some (L.ReadAll r).1, (L.ReadAll r).2.map error.lib)

/-- The index expression `s[i]` on a slice that may be nil. -/
def index {α : Type} (s : Option (List α)) (i : Nat) : Result α :=
  match s with
  | none => .panic "index out of range"
  | some xs =>
    match xs.get? i with
    | some x => .ret x
    | none => .panic "index out of range"

/-- The statement `req.Header.Add("Accept", "*/*")`. -/
def Request.addAccept (req : Request) : Request :=
  ⟨req.Method, req.URL, req.Header ++ [("Accept", "*/*")]⟩

/-- The function `RetrieveModFile` of main.go (lines 44-63). The variadic parameter
is a slice: `none` (nil) when the call passes no parser, `some ps` when it passes
the parsers `ps` or spreads the slice `ps`. The deferred `resp.Body.Close()` has no
effect on the result and is left out. -/
def RetrieveModFile {R : Type} (L : Lib R) (url : String) (customParser : Option (List (Parser R))) :
    Result (Option String × Option error) :=
  let customParser :=
    match customParser with
    | none => some [L.readAll]
    | some ps => some ps
  match L.NewRequest "GET" url with
  | .error err => .ret (none, some (.lib err))
  | .ok req =>
    match L.Do req.addAccept with
    | .error err => .ret (none, some (.lib err))
    | .ok body =>
      match index customParser 0 with
      | .panic msg => .panic msg
      | .ret parser => parser body

/-! ## `main` -/

/-- The type `module.Version`, named `ModVersion` here. -/
structure ModVersion where
  Path : String
  Version : String
  deriving DecidableEq, Repr

/-- The type `modfile.Require`, as far as the program reads it. -/
structure Require where
  Mod : ModVersion
  deriving DecidableEq, Repr

/-- The type `modfile.Go`. -/
structure GoDirective where
  Version : String
  deriving DecidableEq, Repr

/-- The type `modfile.File`, as far as the program reads it. `Go` is a pointer, nil
(`none`) when the manifest has no `go` directive. -/
structure File where
  Go : Option GoDirective
  Require : List Require
  deriving DecidableEq, Repr

/-- How a run ends. -/
inductive Status where
  | exit (code : Nat)
  | panic (msg : String)
  deriving DecidableEq, Repr

/-- What a run shows: the text written to standard output and how it ends. -/
structure Run where
  stdout : String
  status : Status
  deriving DecidableEq, Repr

/-- The function `fmt.Println` on operands already turned into text: a space between
the operands and a newline after them. -/
def Println (operands : List String) : String := Join operands " " ++ "\n"

/-- The loop of `main` (lines 30-32), after `out` has been written. -/
def printModules (out : String) : List Require → Run
  | [] => ⟨out, .exit 0⟩
  | r :: rs =>
    match ReplacePathVersion r.Mod.Path with
    | .panic msg => ⟨out, .panic msg⟩
    | .ret p => printModules (out ++ "- " ++ p ++ "\n") rs

/-- The URL `main` fetches. -/
def modFileURL : String := "https://github.com/junegunn/fzf/blob/master/go.mod"

/-- The function `GithubJSONParser` as the parser `main` passes: it does not panic. -/
def Lib.githubParser {R : Type} (L : Lib R) : Parser R := fun r =>
  .ret (GithubJSONParser L.Decode r)

/-- The function `main` of main.go (lines 17-33). `Parse` stands for the call
`modfile.Parse(file, data, nil)`. -/
def main {R : Type} (L : Lib R) (Parse : String → Option String → Except LibError File) : Run :=
  match RetrieveModFile L modFileURL (some [L.githubParser]) with
  | .panic msg => ⟨"", .panic msg⟩
  | .ret (_, some err) => ⟨Println ["retrieve mod file:", err.Error], .exit 1⟩
  | .ret (content, none) =>
    match Parse "go.mod" content with
    | .error err => ⟨Println ["parse mod file:", err.text], .exit 1⟩
    | .ok f =>
      match f.Go with
      | none => ⟨"", .panic "invalid memory address or nil pointer dereference"⟩
      | some g =>
        printModules (Println ["go version:", g.Version] ++ Println ["modules:"]) f.Require

/-- A stage of `main` fails with the error `e`; `label` is the stage's label. The
fetch fails when the request cannot be built or the transport fails, the extraction
when `GithubJSONParser` returns an error, the parse when `modfile.Parse` does. -/
inductive StageFails {R : Type} (L : Lib R) (Parse : String → Option String → Except LibError File) :
    String → error → Prop where
  | request (e : LibError) (h : L.NewRequest "GET" modFileURL = .error e) :
    StageFails L Parse "retrieve mod file" (.lib e)
  | transport (req : Request) (e : LibError) (hreq : L.NewRequest "GET" modFileURL = .ok req)
      (h : L.Do req.addAccept = .error e) : StageFails L Parse "retrieve mod file" (.lib e)
  | extract (req : Request) (body : R) (content : Option String) (e : error)
      (hreq : L.NewRequest "GET" modFileURL = .ok req) (hdo : L.Do req.addAccept = .ok body)
      (h : GithubJSONParser L.Decode body = (content, some e)) :
    StageFails L Parse "retrieve mod file" e
  | parse (req : Request) (body : R) (content : Option String) (e : LibError)
      (hreq : L.NewRequest "GET" modFileURL = .ok req) (hdo : L.Do req.addAccept = .ok body)
      (hext : GithubJSONParser L.Decode body = (content, none))
      (h : Parse "go.mod" content = .error e) : StageFails L Parse "parse mod file" (.lib e)

/-- The payload of the example: three lines. -/
def exampleBody : GithubResponseBody :=
  ⟨⟨⟨some ["module m", "go 1.21", "require x v1.0.0"]⟩⟩⟩

/-- The manifest of the example: `go 1.21` and two requirements. -/
def exampleFile : File :=
  ⟨some ⟨"1.21"⟩, [⟨⟨"example.com/a/v2", "v2.0.0"⟩⟩, ⟨⟨"example.com/b", "v1.0.0"⟩⟩]⟩

/-- A manifest without a `go` directive, such as the one parsed from `module m`. -/
def noGoFile : File := ⟨none, [⟨⟨"example.com/b", "v1.0.0"⟩⟩]⟩

/-- A document whose `rawLines` is a number. -/
def numberDoc : JSON :=
  .object [("payload", .object [("blob", .object [("rawLines", .number "5")])])]

/-- A document whose `blob` has no `rawLines`. -/
def missingDoc : JSON :=
  .object [("payload", .object [("blob", .object [("language", .string "Go")])])]

/-- Whether the characters `pre` are the first characters of `s`. -/
def startsWith : List Char → List Char → Bool
  | [], _ => true
  | _ :: _, [] => false
  | p :: ps, c :: cs => p == c && startsWith ps cs

/-- The lines of a text written to standard output: the pieces between the newlines,
without the empty piece that follows a final newline. -/
def outputLines (out : String) : List String :=
  let pieces := Split out '\n'
  if pieces.getLast? = some "" then pieces.dropLast else pieces

/-- A line of the form `go version: ...`. -/
def isVersionLine (l : String) : Bool := startsWith "go version:".data l.data

/-- The line `modules:`. -/
def isModulesLine (l : String) : Bool := l == "modules:"

/-- A line of the form `- ...`, as written for a requirement. -/
def isBulletLine (l : String) : Bool := startsWith "- ".data l.data

/-- The lines of the example whose manifest has two unknown directives. -/
def twoErrorBody : GithubResponseBody := ⟨⟨⟨some ["module m", "foo", "bar"]⟩⟩⟩

/-- The error list `modfile.Parse` returns for that manifest: its text is the two
errors joined by a newline. -/
def twoErrors : LibError :=
  ⟨"go.mod:2: unknown directive: foo\ngo.mod:3: unknown directive: bar"⟩

/-- A stand-in for `modfile.Parse` that rejects that manifest with `twoErrors`. -/
def twoErrorParse : String → Option String → Except LibError File := fun _ data =>
  if data = some "module m\nfoo\nbar" then .error twoErrors else .ok exampleFile

/-- A library for examples: the request is built, the transport gives `body` or
fails, reading and decoding return what `body` holds. -/
def demoLib (transport : Except LibError (Except LibError GithubResponseBody)) :
    Lib (Except LibError GithubResponseBody) where
  NewRequest := fun method url => .ok ⟨method, url, []⟩
  Do := fun _ => transport
  ReadAll := fun _ => ("", none)
  Decode := fun r => r

/-! ## Lemmas on `Split` and `Join` -/

theorem splitChars_ne_nil (sep : Char) (s : List Char) : splitChars sep s ≠ [] := by
  induction s with
  | nil => simp [splitChars]
  | cons c cs ih =>
    unfold splitChars
    split
    · simp
    · split <;> simp

theorem splitChars_append_sep (sep : Char) (a b : List Char) :
    splitChars sep (a ++ sep :: b) = splitChars sep a ++ splitChars sep b := by
  induction a with
  | nil => simp [splitChars]
  | cons c cs ih =>
    by_cases h : c = sep
    · simp [splitChars, h, ih]
    · have hne := splitChars_ne_nil sep cs
      cases hs : splitChars sep cs with
      | nil => exact absurd hs hne
      | cons x xs => simp [splitChars, h, ih, hs]

theorem splitChars_of_not_mem (sep : Char) (b : List Char) (h : sep ∉ b) :
    splitChars sep b = [b] := by
  induction b with
  | nil => rfl
  | cons c cs ih =>
    have hc : ¬ c = sep := fun e => h (by simp [e])
    have hcs : sep ∉ cs := fun e => h (by simp [e])
    simp [splitChars, hc, ih hcs]

theorem Join_cons_cons (a b : String) (rest : List String) (sep : String) :
    Join (a :: b :: rest) sep = a ++ sep ++ Join (b :: rest) sep := rfl

theorem Join_mk_cons (c : Char) (h : List Char) (t : List String) (sep : String) :
    (Join (String.mk (c :: h) :: t) sep).data = c :: (Join (String.mk h :: t) sep).data := by
  cases t with
  | nil => simp [Join]
  | cons x xs => simp [Join, String.data_append]

theorem Join_splitChars (sep : Char) (s : List Char) :
    (Join ((splitChars sep s).map String.mk) (String.mk [sep])).data = s := by
  induction s with
  | nil => simp [splitChars, Join]
  | cons c cs ih =>
    have hne := splitChars_ne_nil sep cs
    cases hs : splitChars sep cs with
    | nil => exact absurd hs hne
    | cons x xs =>
      rw [hs] at ih
      by_cases h : c = sep
      · subst h
        simp only [splitChars, if_true, hs, List.map_cons, Join_cons_cons, String.data_append]
        simp only [List.map_cons] at ih
        rw [ih]
        rfl
      · simp only [splitChars, if_neg h, hs, List.map_cons]
        rw [Join_mk_cons]
        simp only [List.map_cons] at ih
        rw [ih]

theorem intercalate_go_append (sep acc a : String) (l : List String) :
    String.intercalate.go (acc ++ a) sep l = acc ++ String.intercalate.go a sep l := by
  induction l generalizing a with
  | nil => rfl
  | cons b l ih =>
    simp only [String.intercalate.go]
    rw [String.append_assoc, String.append_assoc, ← String.append_assoc a, ih]

theorem Join_eq_intercalate (l : List String) (sep : String) : Join l sep = sep.intercalate l := by
  cases l with
  | nil => rfl
  | cons a l =>
    show Join (a :: l) sep = String.intercalate.go a sep l
    induction l generalizing a with
    | nil => rfl
    | cons b l ih =>
      rw [Join_cons_cons, ih b]
      simp only [String.intercalate.go]
      rw [String.append_assoc, intercalate_go_append]
      rw [String.append_assoc]

theorem sliceTo_pred {α : Type} (xs : List α) (x : α) :
    sliceTo (xs ++ [x]) (((xs ++ [x]).length : Int) - 1) = .ret xs := by
  simp [sliceTo]

/-! ## Lemmas on the pattern -/

theorem nil_mem_plusEnds_digit (n : Nat) (r : List Char) :
    [] ∈ plusEnds (Regexp.ends .digit) n r ↔
      r ≠ [] ∧ r.length ≤ n ∧ ∀ c ∈ r, c.isDigit = true := by
  induction n generalizing r with
  | zero =>
    cases r <;> simp [plusEnds]
  | succ n ih =>
    cases r with
    | nil => simp [plusEnds, Regexp.ends]
    | cons x xs =>
      by_cases hx : x.isDigit = true
      · simp only [plusEnds, Regexp.ends, hx, if_true, List.flatMap_cons, List.flatMap_nil,
          List.append_nil, List.mem_cons, ih]
        cases xs with
        | nil => simp [hx]
        | cons y ys => simp [hx]
      · simp [plusEnds, Regexp.ends, hx]

theorem ends_endText_isEmpty (rs : List (List Char)) :
    (rs.flatMap (Regexp.ends .endText)).isEmpty = false ↔ [] ∈ rs := by
  induction rs with
  | nil => simp
  | cons r rs ih =>
    cases r with
    | nil => simp [Regexp.ends]
    | cons x xs =>
      simp only [List.flatMap_cons, Regexp.ends, List.nil_append, List.mem_cons]
      simp [ih]

theorem ends_version_isEmpty (t : List Char) :
    (versionPattern.ends t).isEmpty = false ↔
      ∃ d, d ≠ [] ∧ (∀ c ∈ d, c.isDigit = true) ∧ t = '/' :: 'v' :: d := by
  have key : versionPattern.ends t =
      (Regexp.ends (.cat (.lit '/') (.cat (.lit 'v') (.plus .digit))) t).flatMap
        (Regexp.ends .endText) := rfl
  rw [key, ends_endText_isEmpty]
  cases t with
  | nil => simp [Regexp.ends]
  | cons x xs =>
    by_cases hx : x = '/'
    · subst hx
      cases xs with
      | nil => simp [Regexp.ends]
      | cons y ys =>
        by_cases hy : y = 'v'
        · subst hy
          simp only [Regexp.ends, if_true, List.flatMap_cons, List.flatMap_nil, List.append_nil,
            nil_mem_plusEnds_digit]
          constructor
          · rintro ⟨h1, _, h3⟩
            exact ⟨ys, h1, h3, rfl⟩
          · rintro ⟨d, h1, h3, h4⟩
            simp only [List.cons.injEq, true_and] at h4
            subst h4
            exact ⟨h1, Nat.le_succ _, h3⟩
        · simp [Regexp.ends, hy]
    · simp [Regexp.ends, hx]

theorem MatchString_version (s : String) :
    MatchString versionPattern s = true ↔
      ∃ q d : List Char, d ≠ [] ∧ (∀ c ∈ d, c.isDigit = true) ∧ s.data = q ++ '/' :: 'v' :: d := by
  unfold MatchString
  rw [List.any_eq_true]
  constructor
  · rintro ⟨t, ht, hm⟩
    rw [List.mem_tails] at ht
    obtain ⟨q, hq⟩ := ht
    have hm2 : (versionPattern.ends t).isEmpty = false := by simpa using hm
    obtain ⟨d, h1, h2, h3⟩ := (ends_version_isEmpty t).1 hm2
    exact ⟨q, d, h1, h2, by rw [← hq, h3]⟩
  · rintro ⟨q, d, h1, h2, h3⟩
    refine ⟨'/' :: 'v' :: d, ?_, ?_⟩
    · rw [List.mem_tails, h3]
      exact ⟨q, rfl⟩
    · have := (ends_version_isEmpty ('/' :: 'v' :: d)).2 ⟨d, h1, h2, rfl⟩
      simp [this]

theorem Split_version (q d : List Char) (hd : '/' ∉ d) :
    Split (String.mk (q ++ '/' :: 'v' :: d)) '/' =
      (splitChars '/' q).map String.mk ++ [String.mk ('v' :: d)] := by
  have hv : '/' ∉ 'v' :: d := by
    intro h
    rcases List.mem_cons.1 h with h | h
    · exact absurd h (by decide)
    · exact hd h
  simp [Split, splitChars_append_sep, splitChars_of_not_mem _ _ hv]

theorem not_slash_of_isDigit (d : List Char) (h : ∀ c ∈ d, c.isDigit = true) : '/' ∉ d :=
  fun hm => absurd (h _ hm) (by decide)

theorem ReplacePathVersion_version (q d : List Char) (hd : d ≠ [])
    (hdig : ∀ c ∈ d, c.isDigit = true) :
    ReplacePathVersion (String.mk (q ++ '/' :: 'v' :: d)) = .ret (String.mk q) := by
  have hm : MatchString versionPattern (String.mk (q ++ '/' :: 'v' :: d)) = true :=
    (MatchString_version _).2 ⟨q, d, hd, hdig, rfl⟩
  have hj := Join_splitChars '/' q
  unfold ReplacePathVersion
  rw [if_pos hm]
  simp only [Split_version q d (not_slash_of_isDigit d hdig), sliceTo_pred]
  congr 1
  exact String.ext hj

theorem ReplacePathVersion_no_match (p : String) (h : MatchString versionPattern p = false) :
    ReplacePathVersion p = .ret p := by
  simp [ReplacePathVersion, h]

theorem MatchString_version_string (p : String) :
    MatchString versionPattern p = true ↔
      ∃ q d : String, d ≠ "" ∧ (∀ c ∈ d.data, c.isDigit = true) ∧ p = q ++ "/v" ++ d := by
  rw [MatchString_version]
  constructor
  · rintro ⟨q, d, h1, h2, h3⟩
    refine ⟨String.mk q, String.mk d, ?_, h2, ?_⟩
    · intro h
      exact h1 (congrArg String.data h)
    · apply String.ext
      simp [String.data_append, h3]
  · rintro ⟨q, d, h1, h2, h3⟩
    refine ⟨q.data, d.data, ?_, h2, ?_⟩
    · intro h
      exact h1 (String.ext h)
    · rw [h3]
      simp [String.data_append]

theorem ReplacePathVersion_returns (p : String) : ∃ s, ReplacePathVersion p = .ret s := by
  unfold ReplacePathVersion
  split
  · have hne := splitChars_ne_nil '/' p.data
    have hlen : 0 < (Split p '/').length := by
      simp only [Split, List.length_map]
      exact List.length_pos.2 hne
    have hs : sliceTo (Split p '/') (((Split p '/').length : Int) - 1) =
        .ret ((Split p '/').take (((Split p '/').length : Int) - 1).toNat) := by
      unfold sliceTo
      rw [if_pos]
      omega
    simp only [hs]
    exact ⟨_, rfl⟩
  · exact ⟨p, rfl⟩

/-! ## The claims on `ReplacePathVersion` -/

/-- C1: a path `q ++ "/v" ++ d` with `d` a non-empty string of ASCII digits is
normalised to exactly `q`: only the final segment and its slash are removed. -/
theorem ReplacePathVersion_strips_version (q d : String) (hd : d ≠ "")
    (hdig : ∀ c ∈ d.data, c.isDigit = true) :
    ReplacePathVersion (q ++ "/v" ++ d) = .ret q := by
  have hne : d.data ≠ [] := fun h => hd (String.ext h)
  have h := ReplacePathVersion_version q.data d.data hne hdig
  have e : q ++ "/v" ++ d = String.mk (q.data ++ '/' :: 'v' :: d.data) := by
    apply String.ext
    simp [String.data_append]
  rw [e, h]

theorem ReplacePathVersion_strips_version_witness :
    ("10" ≠ "" ∧ ∀ c ∈ "10".data, c.isDigit = true) ∧
      ReplacePathVersion ("github.com/foo/bar" ++ "/v" ++ "10") = .ret "github.com/foo/bar" :=
  ⟨⟨by decide, by decide⟩,
    ReplacePathVersion_strips_version "github.com/foo/bar" "10" (by decide) (by decide)⟩

/-- C2: a path that does not end with `/v` followed by one or more ASCII digits is
returned unchanged. -/
theorem ReplacePathVersion_unchanged (p : String)
    (h : ¬ ∃ q d : String, d ≠ "" ∧ (∀ c ∈ d.data, c.isDigit = true) ∧ p = q ++ "/v" ++ d) :
    ReplacePathVersion p = .ret p := by
  apply ReplacePathVersion_no_match
  cases hm : MatchString versionPattern p with
  | false => rfl
  | true => exact absurd ((MatchString_version_string p).1 hm) h

theorem ReplacePathVersion_unchanged_witness :
    (¬ ∃ q d : String, d ≠ "" ∧ (∀ c ∈ d.data, c.isDigit = true) ∧
        "github.com/foo/v2/bar" = q ++ "/v" ++ d) ∧
      ReplacePathVersion "github.com/foo/v2/bar" = .ret "github.com/foo/v2/bar" :=
  have hyp : ¬ ∃ q d : String, d ≠ "" ∧ (∀ c ∈ d.data, c.isDigit = true) ∧
      "github.com/foo/v2/bar" = q ++ "/v" ++ d :=
    fun h => absurd ((MatchString_version_string _).2 h) (by decide)
  ⟨hyp, ReplacePathVersion_unchanged "github.com/foo/v2/bar" hyp⟩

/-- C8, as the claim states it, fails: the path `v2` is returned as it is, not as the
empty string. -/
theorem ReplacePathVersion_bare_version_not_empty :
    ReplacePathVersion "v2" = .ret "v2" ∧ ReplacePathVersion "v2" ≠ .ret "" := by
  decide

/-- C8, amended: a path that is the single segment `v` followed by ASCII digits, with
no slash, does not make `ReplacePathVersion` fail and is returned unchanged (the
pattern asks for the slash before the `v`, so nothing is split off). -/
theorem ReplacePathVersion_bare_version (d : String) (hdig : ∀ c ∈ d.data, c.isDigit = true) :
    ReplacePathVersion ("v" ++ d) = .ret ("v" ++ d) := by
  apply ReplacePathVersion_no_match
  cases hm : MatchString versionPattern ("v" ++ d) with
  | false => rfl
  | true =>
    exfalso
    obtain ⟨q, e, _, _, h3⟩ := (MatchString_version _).1 hm
    have hmem : '/' ∈ ("v" ++ d).data := by
      rw [h3]
      simp
    have hv : ("v" ++ d).data = 'v' :: d.data := by simp [String.data_append]
    rw [hv] at hmem
    rcases List.mem_cons.1 hmem with h | h
    · exact absurd h (by decide)
    · exact not_slash_of_isDigit d.data hdig h

theorem ReplacePathVersion_bare_version_witness :
    (∀ c ∈ "2".data, c.isDigit = true) ∧ ReplacePathVersion ("v" ++ "2") = .ret ("v" ++ "2") :=
  ⟨by decide, ReplacePathVersion_bare_version "2" (by decide)⟩

/-! ## The claims on `GithubJSONParser` -/

/-- C3: when the decoded payload has `payload.blob.rawLines` present (not nil), the
parser succeeds with the lines joined by one newline between adjacent lines and no
newline before or after; an empty sequence gives empty content, not an error. -/
theorem GithubJSONParser_joins_lines {R : Type} (Decode : R → Except LibError GithubResponseBody)
    (r : R) (body : GithubResponseBody) (lines : List String) (hdec : Decode r = .ok body)
    (hraw : body.Payload.Blob.RawLines = some lines) :
    GithubJSONParser Decode r = (some (Join lines "\n"), none) ∧
      Join lines "\n" = "\n".intercalate lines ∧
      (lines = [] → GithubJSONParser Decode r = (some "", none)) := by
  have h : GithubJSONParser Decode r = (some (Join lines "\n"), none) := by
    simp [GithubJSONParser, hdec, hraw]
  refine ⟨h, Join_eq_intercalate lines "\n", ?_⟩
  · intro hl
    rw [h, hl]
    rfl

theorem GithubJSONParser_joins_lines_witness :
    ((fun r => r : Except LibError GithubResponseBody → Except LibError GithubResponseBody)
          (.ok exampleBody) = .ok exampleBody ∧
        exampleBody.Payload.Blob.RawLines = some ["module m", "go 1.21", "require x v1.0.0"]) ∧
      GithubJSONParser (fun r => r) (Except.ok exampleBody : Except LibError GithubResponseBody) =
        (some "module m\ngo 1.21\nrequire x v1.0.0", none) :=
  ⟨⟨rfl, rfl⟩,
    (GithubJSONParser_joins_lines (fun r => r) (.ok exampleBody) exampleBody
      ["module m", "go 1.21", "require x v1.0.0"] rfl rfl).1⟩

/-- C4: the parser fails with the error `empty content`, and with nil content,
exactly when the payload was decoded and its `payload.blob.rawLines` is nil. -/
theorem GithubJSONParser_empty_content {R : Type}
    (Decode : R → Except LibError GithubResponseBody) (r : R) :
    (GithubJSONParser Decode r = (none, some (.New "empty content")) ↔
        ∃ body, Decode r = .ok body ∧ body.Payload.Blob.RawLines = none) ∧
      ((GithubJSONParser Decode r).2 = some (.New "empty content") ↔
        ∃ body, Decode r = .ok body ∧ body.Payload.Blob.RawLines = none) := by
  unfold GithubJSONParser
  cases hd : Decode r with
  | error e => simp
  | ok body =>
    cases hr : body.Payload.Blob.RawLines with
    | none => simp [hr]
    | some lines => simp [hr]

/-! ## Lemmas on `RetrieveModFile` and `main` -/

theorem RetrieveModFile_request_error {R : Type} (L : Lib R) (url : String)
    (ps : Option (List (Parser R))) (e : LibError) (h : L.NewRequest "GET" url = .error e) :
    RetrieveModFile L url ps = .ret (none, some (.lib e)) := by
  simp [RetrieveModFile, h]

theorem RetrieveModFile_transport_error {R : Type} (L : Lib R) (url : String)
    (ps : Option (List (Parser R))) (req : Request) (e : LibError)
    (hreq : L.NewRequest "GET" url = .ok req) (h : L.Do req.addAccept = .error e) :
    RetrieveModFile L url ps = .ret (none, some (.lib e)) := by
  simp [RetrieveModFile, hreq, h]

theorem RetrieveModFile_first_supplied {R : Type} (L : Lib R) (url : String) (p : Parser R)
    (ps : List (Parser R)) (req : Request) (body : R) (hreq : L.NewRequest "GET" url = .ok req)
    (hdo : L.Do req.addAccept = .ok body) :
    RetrieveModFile L url (some (p :: ps)) = p body := by
  simp only [RetrieveModFile, hreq, hdo, index, List.get?]

theorem RetrieveModFile_nil_parsers {R : Type} (L : Lib R) (url : String) (req : Request)
    (body : R) (hreq : L.NewRequest "GET" url = .ok req) (hdo : L.Do req.addAccept = .ok body) :
    RetrieveModFile L url none =
      .ret (some (L.ReadAll body).1, (L.ReadAll body).2.map error.lib) := by
  simp [RetrieveModFile, hreq, hdo, index, Lib.readAll]

theorem RetrieveModFile_github {R : Type} (L : Lib R) (req : Request) (body : R)
    (hreq : L.NewRequest "GET" modFileURL = .ok req) (hdo : L.Do req.addAccept = .ok body) :
    RetrieveModFile L modFileURL (some [L.githubParser]) =
      .ret (GithubJSONParser L.Decode body) := by
  rw [RetrieveModFile_first_supplied L modFileURL L.githubParser [] req body hreq hdo]
  rfl

theorem printModules_output (rs : List Require) (out : String) :
    ∃ paths : List String,
      List.Forall₂ (fun r p => ReplacePathVersion r.Mod.Path = .ret p) rs paths ∧
      printModules out rs = ⟨out ++ String.join (paths.map fun p => "- " ++ p ++ "\n"), .exit 0⟩ := by
  induction rs generalizing out with
  | nil => exact ⟨[], List.Forall₂.nil, by simp [printModules, String.join]⟩
  | cons r rs ih =>
    obtain ⟨p, hp⟩ := ReplacePathVersion_returns r.Mod.Path
    obtain ⟨paths, hall, hout⟩ := ih (out ++ "- " ++ p ++ "\n")
    refine ⟨p :: paths, List.Forall₂.cons hp hall, ?_⟩
    simp only [printModules, hp, hout]
    congr 1
    apply String.ext
    simp [String.data_append, String.data_join]

theorem Println_two (a b : String) : Println [a, b] = a ++ " " ++ b ++ "\n" := rfl

theorem main_retrieve_error {R : Type} (L : Lib R)
    (Parse : String → Option String → Except LibError File) (content : Option String) (e : error)
    (h : RetrieveModFile L modFileURL (some [L.githubParser]) = .ret (content, some e)) :
    main L Parse = ⟨"retrieve mod file" ++ ": " ++ e.Error ++ "\n", .exit 1⟩ := by
  simp only [main, h, Println_two]
  rfl

theorem main_parse_error {R : Type} (L : Lib R)
    (Parse : String → Option String → Except LibError File) (content : Option String)
    (e : LibError)
    (h : RetrieveModFile L modFileURL (some [L.githubParser]) = .ret (content, none))
    (hp : Parse "go.mod" content = .error e) :
    main L Parse = ⟨"parse mod file" ++ ": " ++ e.text ++ "\n", .exit 1⟩ := by
  simp only [main, h, hp, Println_two]
  rfl

/-! ## The claims on `main` and `RetrieveModFile` -/

/-- C5: when the manifest is retrieved and parsed, with language version `V` and the
requirements `f.Require`, the run writes the line `go version: V`, the line
`modules:`, then one line `- p` per requirement in order, `p` being what
`ReplacePathVersion` returns for its path, writes nothing else and ends with
status 0. -/
theorem main_prints_modules {R : Type} (L : Lib R)
    (Parse : String → Option String → Except LibError File) (content : Option String)
    (f : File) (V : String)
    (hget : RetrieveModFile L modFileURL (some [L.githubParser]) = .ret (content, none))
    (hparse : Parse "go.mod" content = .ok f) (hgo : f.Go = some ⟨V⟩) :
    ∃ paths : List String,
      List.Forall₂ (fun r p => ReplacePathVersion r.Mod.Path = .ret p) f.Require paths ∧
      main L Parse =
        ⟨"go version: " ++ V ++ "\n" ++ "modules:\n" ++
          String.join (paths.map fun p => "- " ++ p ++ "\n"), .exit 0⟩ := by
  obtain ⟨paths, hall, hout⟩ :=
    printModules_output f.Require (Println ["go version:", V] ++ Println ["modules:"])
  refine ⟨paths, hall, ?_⟩
  simp only [main, hget, hparse, hgo, hout]
  rfl

theorem main_prints_modules_witness :
    (RetrieveModFile (demoLib (.ok (.ok exampleBody))) modFileURL
          (some [(demoLib (.ok (.ok exampleBody))).githubParser]) =
        .ret (some "module m\ngo 1.21\nrequire x v1.0.0", none) ∧
      (fun _ _ => Except.ok exampleFile : String → Option String → Except LibError File)
          "go.mod" (some "module m\ngo 1.21\nrequire x v1.0.0") = .ok exampleFile ∧
      exampleFile.Go = some ⟨"1.21"⟩) ∧
    ∃ paths : List String,
      List.Forall₂ (fun r p => ReplacePathVersion r.Mod.Path = .ret p) exampleFile.Require paths ∧
      main (demoLib (.ok (.ok exampleBody))) (fun _ _ => .ok exampleFile) =
        ⟨"go version: " ++ "1.21" ++ "\n" ++ "modules:\n" ++
          String.join (paths.map fun p => "- " ++ p ++ "\n"), .exit 0⟩ :=
  ⟨⟨by decide, rfl, rfl⟩,
    main_prints_modules (demoLib (.ok (.ok exampleBody))) (fun _ _ => .ok exampleFile)
      (some "module m\ngo 1.21\nrequire x v1.0.0") exampleFile "1.21" (by decide) rfl rfl⟩

theorem main_example :
    main (demoLib (.ok (.ok exampleBody))) (fun _ _ => .ok exampleFile) =
      ⟨"go version: 1.21\nmodules:\n- example.com/a\n- example.com/b\n", .exit 0⟩ := by
  decide

theorem main_failure_output {R : Type} (L : Lib R)
    (Parse : String → Option String → Except LibError File) (label : String) (e : error)
    (h : StageFails L Parse label e) :
    main L Parse = ⟨label ++ ": " ++ e.Error ++ "\n", .exit 1⟩ := by
  cases h with
  | request e h =>
    exact main_retrieve_error L Parse none _ (RetrieveModFile_request_error L _ _ e h)
  | transport req e hreq h =>
    exact main_retrieve_error L Parse none _ (RetrieveModFile_transport_error L _ _ req e hreq h)
  | extract req body content e hreq hdo h =>
    exact main_retrieve_error L Parse content e
      ((RetrieveModFile_github L req body hreq hdo).trans (congrArg Result.ret h))
  | parse req body content e hreq hdo hext h =>
    exact main_parse_error L Parse content e
      ((RetrieveModFile_github L req body hreq hdo).trans (congrArg Result.ret hext)) h

theorem StageFails_label {R : Type} (L : Lib R)
    (Parse : String → Option String → Except LibError File) (label : String) (e : error)
    (h : StageFails L Parse label e) : label = "retrieve mod file" ∨ label = "parse mod file" := by
  cases h with
  | request e h => exact Or.inl rfl
  | transport req e hreq h => exact Or.inl rfl
  | extract req body content e hreq hdo h => exact Or.inl rfl
  | parse req body content e hreq hdo hext h => exact Or.inr rfl

theorem outputLines_single (t : String) (h : '\n' ∉ t.data) : outputLines (t ++ "\n") = [t] := by
  have hs : Split (t ++ "\n") '\n' = [t, ""] := by
    have hd : (t ++ "\n").data = t.data ++ '\n' :: [] := by simp [String.data_append]
    simp only [Split, hd, splitChars_append_sep, splitChars_of_not_mem _ _ h]
    rfl
  simp [outputLines, hs]

theorem failure_line_plain (label msg : String)
    (hl : label = "retrieve mod file" ∨ label = "parse mod file") (h : '\n' ∉ msg.data) :
    '\n' ∉ (label ++ ": " ++ msg).data := by
  intro hm
  simp only [String.data_append, List.mem_append] at hm
  rcases hm with (hm | hm) | hm
  · rcases hl with hl | hl <;> subst hl <;> exact absurd hm (by decide)
  · exact absurd hm (by decide)
  · exact h hm

theorem failure_line_kind (label msg : String)
    (hl : label = "retrieve mod file" ∨ label = "parse mod file") :
    isVersionLine (label ++ ": " ++ msg) = false ∧ isModulesLine (label ++ ": " ++ msg) = false ∧
      isBulletLine (label ++ ": " ++ msg) = false := by
  rcases hl with hl | hl <;> subst hl
  · refine ⟨rfl, ?_, rfl⟩
    simp only [isModulesLine, beq_eq_false_iff_ne, ne_eq]
    intro hc
    have hd := congrArg String.data hc
    simp [String.data_append] at hd
  · refine ⟨rfl, ?_, rfl⟩
    simp only [isModulesLine, beq_eq_false_iff_ne, ne_eq]
    intro hc
    have hd := congrArg String.data hc
    simp [String.data_append] at hd

/-- C6, as the claim states it, fails: a manifest with two unknown directives makes
`modfile.Parse` fail with an error whose text has two lines, and the run writes two
lines, not exactly one. -/
theorem main_two_error_lines :
    StageFails (demoLib (.ok (.ok twoErrorBody))) twoErrorParse "parse mod file"
        (.lib twoErrors) ∧
      outputLines (main (demoLib (.ok (.ok twoErrorBody))) twoErrorParse).stdout =
        ["parse mod file: go.mod:2: unknown directive: foo", "go.mod:3: unknown directive: bar"] ∧
      (outputLines (main (demoLib (.ok (.ok twoErrorBody))) twoErrorParse).stdout).length ≠ 1 :=
  ⟨StageFails.parse ⟨"GET", modFileURL, []⟩
      (Except.ok twoErrorBody : Except LibError GithubResponseBody) (some "module m\nfoo\nbar")
      twoErrors rfl rfl rfl rfl, by decide, by decide⟩

/-- C6, amended: when the fetch, the extraction or the manifest parse fails with the
error `e`, the run writes exactly `label: ` followed by the text of `e` and a
newline, with the label of the stage, writes nothing else and ends with status 1;
when the text of `e` has no newline this is exactly one line, and it is no
`go version:` line, no `modules:` line and no bullet line. -/
theorem main_reports_failure {R : Type} (L : Lib R)
    (Parse : String → Option String → Except LibError File) (label : String) (e : error)
    (h : StageFails L Parse label e) :
    main L Parse = ⟨label ++ ": " ++ e.Error ++ "\n", .exit 1⟩ ∧
      ('\n' ∉ e.Error.data →
        outputLines (main L Parse).stdout = [label ++ ": " ++ e.Error] ∧
          ∀ l ∈ outputLines (main L Parse).stdout,
            isVersionLine l = false ∧ isModulesLine l = false ∧ isBulletLine l = false) := by
  have hout := main_failure_output L Parse label e h
  have hl := StageFails_label L Parse label e h
  refine ⟨hout, ?_⟩
  intro hn
  have hlines : outputLines (main L Parse).stdout = [label ++ ": " ++ e.Error] := by
    rw [hout]
    exact outputLines_single _ (failure_line_plain label e.Error hl hn)
  refine ⟨hlines, ?_⟩
  intro l hmem
  rw [hlines] at hmem
  rw [List.mem_singleton.1 hmem]
  exact failure_line_kind label e.Error hl

theorem main_reports_failure_witness :
    (StageFails (demoLib (.error ⟨"connection refused"⟩)) (fun _ _ => .ok exampleFile)
        "retrieve mod file" (.lib ⟨"connection refused"⟩) ∧
      '\n' ∉ (error.lib ⟨"connection refused"⟩).Error.data) ∧
      main (demoLib (.error ⟨"connection refused"⟩)) (fun _ _ => .ok exampleFile) =
        ⟨"retrieve mod file: connection refused\n", .exit 1⟩ ∧
      outputLines (main (demoLib (.error ⟨"connection refused"⟩))
          (fun _ _ => .ok exampleFile)).stdout = ["retrieve mod file: connection refused"] :=
  have hyp : StageFails (demoLib (.error ⟨"connection refused"⟩)) (fun _ _ => .ok exampleFile)
      "retrieve mod file" (.lib ⟨"connection refused"⟩) :=
    StageFails.transport ⟨"GET", modFileURL, []⟩ ⟨"connection refused"⟩ rfl rfl
  ⟨⟨hyp, by decide⟩, (main_reports_failure _ _ _ _ hyp).1,
    ((main_reports_failure _ _ _ _ hyp).2 (by decide)).1⟩

/-- C9 at an empty, non-nil slice of parsers (a call that spreads an empty slice):
the transport succeeds, no parser is supplied, and `RetrieveModFile` panics on
`customParser[0]` instead of returning what `io.ReadAll` reads. -/
theorem RetrieveModFile_empty_parsers_panics :
    RetrieveModFile (demoLib (.ok (.ok exampleBody))) modFileURL (some []) =
        .panic "index out of range" ∧
      RetrieveModFile (demoLib (.ok (.ok exampleBody))) modFileURL (some []) ≠
        (demoLib (.ok (.ok exampleBody))).readAll (.ok exampleBody) := by
  decide

/-- C10 at a manifest without a `go` directive: `modfile.Parse` succeeds, `f.Go` is
nil, and `main` panics on `f.Go.Version` before it writes anything. -/
theorem main_nil_go_panics :
    main (demoLib (.ok (.ok exampleBody))) (fun _ _ => .ok noGoFile) =
      ⟨"", .panic "invalid memory address or nil pointer dereference"⟩ := by
  decide

/-! ## Lemmas on the decoder -/

theorem saveError_isSome (saved e : Option LibError) (h : saved.isSome = true) :
    (saveError saved e).isSome = true := by
  cases saved with
  | none => simp at h
  | some x => rfl

theorem saveError_some_isSome (saved : Option LibError) (e : LibError) :
    (saveError saved (some e)).isSome = true := by
  cases saved <;> rfl

theorem decodeString_keeps (lib : JSONLib) (field cur : String) (v : JSON)
    (saved : Option LibError) (h : saved.isSome = true) :
    (decodeString lib field cur v saved).2.isSome = true := by
  cases v <;> simp [decodeString, h, saveError_isSome]

theorem decodeElems_keeps (lib : JSONLib) (field : String) (es : List JSON)
    (backing : List String) (saved : Option LibError) (h : saved.isSome = true) :
    (decodeElems lib field es backing saved).2.isSome = true := by
  induction es generalizing backing saved with
  | nil => simpa [decodeElems] using h
  | cons e es ih =>
    simp only [decodeElems]
    exact ih _ _ (decodeString_keeps lib field _ e saved h)

theorem decodeElems_fails (lib : JSONLib) (field : String) (es : List JSON)
    (backing : List String) (saved : Option LibError)
    (h : (JSON.array es).fitsRawLines = false) :
    (decodeElems lib field es backing saved).2.isSome = true := by
  induction es generalizing backing saved with
  | nil => simp [JSON.fitsRawLines] at h
  | cons e es ih =>
    simp only [decodeElems]
    cases e with
    | null =>
      apply ih
      simpa [JSON.fitsRawLines] using h
    | string x =>
      apply ih
      simpa [JSON.fitsRawLines] using h
    | bool x => exact decodeElems_keeps _ _ _ _ _ (saveError_some_isSome _ _)
    | number x => exact decodeElems_keeps _ _ _ _ _ (saveError_some_isSome _ _)
    | array x => exact decodeElems_keeps _ _ _ _ _ (saveError_some_isSome _ _)
    | object x => exact decodeElems_keeps _ _ _ _ _ (saveError_some_isSome _ _)

theorem decodeRawLines_keeps (lib : JSONLib) (cur : Option StringSlice) (v : JSON)
    (saved : Option LibError) (h : saved.isSome = true) :
    (decodeRawLines lib cur v saved).2.isSome = true := by
  cases v with
  | array es =>
    cases es with
    | nil => simpa [decodeRawLines] using h
    | cons e es =>
      simp only [decodeRawLines]
      exact decodeElems_keeps _ _ _ _ _ h
  | null => simpa [decodeRawLines] using h
  | bool x => exact saveError_isSome _ _ h
  | number x => exact saveError_isSome _ _ h
  | string x => exact saveError_isSome _ _ h
  | object x => exact saveError_isSome _ _ h

theorem decodeRawLines_fails (lib : JSONLib) (cur : Option StringSlice) (v : JSON)
    (saved : Option LibError) (h : v.fitsRawLines = false) :
    (decodeRawLines lib cur v saved).2.isSome = true := by
  cases v with
  | array es =>
    cases es with
    | nil => simp [JSON.fitsRawLines] at h
    | cons e es =>
      simp only [decodeRawLines]
      exact decodeElems_fails _ _ _ _ _ h
  | null => simp [JSON.fitsRawLines] at h
  | bool x => exact saveError_some_isSome _ _
  | number x => exact saveError_some_isSome _ _
  | string x => exact saveError_some_isSome _ _
  | object x => exact saveError_some_isSome _ _

theorem decodeMembers_keeps (lib : JSONLib) (level : Level) (name : String) (field : Store)
    (hf : ∀ cur v saved, saved.isSome = true → (field cur v saved).2.isSome = true)
    (ms : List (String × JSON)) (cur : Option StringSlice) (saved : Option LibError)
    (h : saved.isSome = true) :
    (decodeMembers lib level name field ms cur saved).2.isSome = true := by
  induction ms generalizing cur saved with
  | nil => simpa [decodeMembers] using h
  | cons m ms ih =>
    obtain ⟨key, v⟩ := m
    simp only [decodeMembers]
    split
    · exact ih _ _ (hf _ _ _ h)
    · exact ih _ _ (saveError_isSome _ _ h)

theorem decodeStruct_keeps (lib : JSONLib) (level : Level) (path name : String) (field : Store)
    (hf : ∀ cur v saved, saved.isSome = true → (field cur v saved).2.isSome = true)
    (cur : Option StringSlice) (v : JSON) (saved : Option LibError) (h : saved.isSome = true) :
    (decodeStruct lib level path name field cur v saved).2.isSome = true := by
  cases v with
  | object ms => exact decodeMembers_keeps lib level name field hf ms cur saved h
  | null => simpa [decodeStruct] using h
  | bool x => exact saveError_isSome _ _ h
  | number x => exact saveError_isSome _ _ h
  | string x => exact saveError_isSome _ _ h
  | array x => exact saveError_isSome _ _ h

theorem decodeMembers_fails (lib : JSONLib) (level : Level) (name : String) (field : Store)
    (Bad : JSON → Prop)
    (hf : ∀ cur v saved, saved.isSome = true → (field cur v saved).2.isSome = true)
    (hbad : ∀ cur v saved, Bad v → (field cur v saved).2.isSome = true)
    (ms : List (String × JSON)) (cur : Option StringSlice) (saved : Option LibError)
    (h : ∃ x ∈ fieldValues lib name ms, Bad x) :
    (decodeMembers lib level name field ms cur saved).2.isSome = true := by
  induction ms generalizing cur saved with
  | nil => simp [fieldValues] at h
  | cons m ms ih =>
    obtain ⟨key, v⟩ := m
    simp only [decodeMembers]
    by_cases hk : lib.names name key = true
    · rw [if_pos hk]
      obtain ⟨x, hx, hb⟩ := h
      simp only [fieldValues, List.filter_cons, hk, if_true, List.map_cons, List.mem_cons] at hx
      rcases hx with hx | hx
      · subst hx
        exact decodeMembers_keeps lib level name field hf ms _ _ (hbad _ _ _ hb)
      · exact ih _ _ ⟨x, hx, hb⟩
    · rw [if_neg hk]
      apply ih
      obtain ⟨x, hx, hb⟩ := h
      simp only [fieldValues, List.filter_cons, hk] at hx
      exact ⟨x, hx, hb⟩

theorem decodeStruct_fails (lib : JSONLib) (level : Level) (path name : String) (field : Store)
    (Bad : JSON → Prop)
    (hf : ∀ cur v saved, saved.isSome = true → (field cur v saved).2.isSome = true)
    (hbad : ∀ cur v saved, Bad v → (field cur v saved).2.isSome = true)
    (cur : Option StringSlice) (v : JSON) (saved : Option LibError)
    (h : v.members = none ∨ ∃ ms, v.members = some ms ∧ ∃ x ∈ fieldValues lib name ms, Bad x) :
    (decodeStruct lib level path name field cur v saved).2.isSome = true := by
  cases v with
  | object ms =>
    rcases h with h | ⟨ms2, h1, h2⟩
    · simp [JSON.members] at h
    · simp only [JSON.members, Option.some.injEq] at h1
      subst h1
      exact decodeMembers_fails lib level name field Bad hf hbad ms cur saved h2
  | null =>
    rcases h with h | ⟨ms2, h1, h2⟩
    · simp [JSON.members] at h
    · simp only [JSON.members, Option.some.injEq] at h1
      subst h1
      simp [fieldValues] at h2
  | bool x => exact saveError_some_isSome _ _
  | number x => exact saveError_some_isSome _ _
  | string x => exact saveError_some_isSome _ _
  | array x => exact saveError_some_isSome _ _

theorem decodeMembers_nil (lib : JSONLib) (level : Level) (name : String) (field : Store)
    (Good : JSON → Prop) (hgood : ∀ v saved, Good v → (field none v saved).1 = none)
    (ms : List (String × JSON)) (saved : Option LibError)
    (h : ∀ x ∈ fieldValues lib name ms, Good x) :
    (decodeMembers lib level name field ms none saved).1 = none := by
  induction ms generalizing saved with
  | nil => rfl
  | cons m ms ih =>
    obtain ⟨key, v⟩ := m
    simp only [decodeMembers]
    by_cases hk : lib.names name key = true
    · rw [if_pos hk]
      have hv : Good v := h v (by simp [fieldValues, hk])
      rw [hgood v saved hv]
      apply ih
      intro x hx
      exact h x (by
        simp only [fieldValues, List.filter_cons, hk, if_true, List.map_cons, List.mem_cons]
        exact Or.inr hx)
    · rw [if_neg hk]
      apply ih
      intro x hx
      exact h x (by
        simp only [fieldValues, List.filter_cons, hk]
        exact hx)

theorem decodeStruct_nil (lib : JSONLib) (level : Level) (path name : String) (field : Store)
    (Good : JSON → Prop) (hgood : ∀ v saved, Good v → (field none v saved).1 = none)
    (v : JSON) (saved : Option LibError)
    (h : ∃ ms, v.members = some ms ∧ ∀ x ∈ fieldValues lib name ms, Good x) :
    (decodeStruct lib level path name field none v saved).1 = none := by
  obtain ⟨ms, h1, h2⟩ := h
  cases v with
  | object ms2 =>
    simp only [JSON.members, Option.some.injEq] at h1
    subst h1
    exact decodeMembers_nil lib level name field Good hgood _ saved h2
  | null => rfl
  | bool x => simp [JSON.members] at h1
  | number x => simp [JSON.members] at h1
  | string x => simp [JSON.members] at h1
  | array x => simp [JSON.members] at h1

theorem decodeBody_nil (lib : JSONLib) (doc : JSON) (saved : Option LibError)
    (h : RawLinesMissingOrNull lib doc) : (decodeBody lib none doc saved).1 = none := by
  refine decodeStruct_nil lib .top "" "payload" (decodePayload lib) _ ?_ doc saved h
  intro p saved hp
  refine decodeStruct_nil lib .payload "payload" "blob" (decodeBlob lib) _ ?_ p saved hp
  intro b saved hb
  refine decodeStruct_nil lib .blob "payload.blob" "rawLines" (decodeRawLines lib) _ ?_ b saved hb
  intro l saved hl
  subst hl
  rfl

theorem decodeBlob_keeps (lib : JSONLib) (cur : Option StringSlice) (v : JSON)
    (saved : Option LibError) (h : saved.isSome = true) :
    (decodeBlob lib cur v saved).2.isSome = true :=
  decodeStruct_keeps lib .blob "payload.blob" "rawLines" _ (decodeRawLines_keeps lib) cur v saved h

theorem decodePayload_keeps (lib : JSONLib) (cur : Option StringSlice) (v : JSON)
    (saved : Option LibError) (h : saved.isSome = true) :
    (decodePayload lib cur v saved).2.isSome = true :=
  decodeStruct_keeps lib .payload "payload" "blob" _ (decodeBlob_keeps lib) cur v saved h

theorem decodeBody_fails (lib : JSONLib) (cur : Option StringSlice) (doc : JSON)
    (saved : Option LibError) (h : RawLinesOfOtherType lib doc) :
    (decodeBody lib cur doc saved).2.isSome = true := by
  refine decodeStruct_fails lib .top "" "payload" (decodePayload lib) _
    (decodePayload_keeps lib) ?_ cur doc saved h
  intro cur p saved hp
  refine decodeStruct_fails lib .payload "payload" "blob" (decodeBlob lib) _
    (decodeBlob_keeps lib) ?_ cur p saved hp
  intro cur b saved hb
  refine decodeStruct_fails lib .blob "payload.blob" "rawLines" (decodeRawLines lib) _
    (decodeRawLines_keeps lib) ?_ cur b saved hb
  intro cur l saved hl
  exact decodeRawLines_fails lib cur l saved hl

theorem numberDoc_other_type : RawLinesOfOtherType plainJSON numberDoc := by
  refine Or.inr ⟨_, rfl, _, List.mem_singleton_self _, Or.inr ⟨_, rfl, _,
    List.mem_singleton_self _, Or.inr ⟨_, rfl, JSON.number "5", List.mem_singleton_self _, rfl⟩⟩⟩

theorem missingDoc_missing : RawLinesMissingOrNull plainJSON missingDoc := by
  refine ⟨_, rfl, ?_⟩
  intro p hp
  have hp2 : p = .object [("blob", .object [("language", .string "Go")])] :=
    List.mem_singleton.1 hp
  subst hp2
  refine ⟨_, rfl, ?_⟩
  intro b hb
  have hb2 : b = .object [("language", .string "Go")] := List.mem_singleton.1 hb
  subst hb2
  refine ⟨_, rfl, ?_⟩
  intro l hl
  exact absurd (show l ∈ ([] : List JSON) from hl) (List.not_mem_nil l)

theorem missingDoc_decodes : ∃ body, Decode plainJSON (.ok missingDoc) = .ok body :=
  ⟨⟨⟨⟨none⟩⟩⟩, rfl⟩

/-! ## The claim on the shape of the document -/

/-- C7, as the claim states it, fails: for the document whose `rawLines` is the
number 5, the parser returns the decoder's type error, not `empty content`. -/
theorem GithubJSONParser_number_not_empty_content :
    RawLinesOfOtherType plainJSON numberDoc ∧
      GithubJSONParser (Decode plainJSON) (.ok numberDoc) =
        (none, some (.lib (plainJSON.typeError "number" "payload.blob.rawLines"))) ∧
      GithubJSONParser (Decode plainJSON) (.ok numberDoc) ≠
        (none, some (.New "empty content")) := by
  exact ⟨numberDoc_other_type, by decide, by decide⟩

/-- C7, amended: for a document that decodes without error and in which
`payload.blob.rawLines` is missing or null (or a `payload` or `blob` on the way is),
the parser fails with `empty content`; for a document in which `rawLines`, `payload`
or `blob` has another JSON type, the parser fails with the decoder's error, nil
content, and not with `empty content`. -/
theorem GithubJSONParser_by_shape (lib : JSONLib) (doc : JSON) :
    (RawLinesMissingOrNull lib doc → (∃ body, Decode lib (.ok doc) = .ok body) →
        GithubJSONParser (Decode lib) (.ok doc) = (none, some (.New "empty content"))) ∧
      (RawLinesOfOtherType lib doc →
        ∃ e, Decode lib (.ok doc) = .error e ∧
          GithubJSONParser (Decode lib) (.ok doc) = (none, some (.lib e))) := by
  constructor
  · rintro hm ⟨body, hb⟩
    have hnil := decodeBody_nil lib doc none hm
    have hraw : body.Payload.Blob.RawLines = none := by
      unfold Decode at hb
      simp only at hb
      split at hb
      · exact absurd hb (by simp)
      · rename_i rawLines heq
        have : rawLines = none := by rw [← hnil, heq]
        subst this
        cases hb
        rfl
    simp [GithubJSONParser, hb, hraw]
  · intro ho
    have hsome := decodeBody_fails lib none doc none ho
    cases hd : decodeBody lib none doc none with
    | mk rl err =>
      rw [hd] at hsome
      cases err with
      | none => simp at hsome
      | some e =>
        have hdec : Decode lib (.ok doc) = .error e := by simp [Decode, hd]
        exact ⟨e, hdec, by simp [GithubJSONParser, hdec]⟩

theorem GithubJSONParser_by_shape_witness :
    (RawLinesMissingOrNull plainJSON missingDoc ∧
        (∃ body, Decode plainJSON (.ok missingDoc) = .ok body) ∧
        GithubJSONParser (Decode plainJSON) (.ok missingDoc) =
          (none, some (.New "empty content"))) ∧
      (RawLinesOfOtherType plainJSON numberDoc ∧
        ∃ e, Decode plainJSON (.ok numberDoc) = .error e ∧
          GithubJSONParser (Decode plainJSON) (.ok numberDoc) = (none, some (.lib e))) :=
  ⟨⟨missingDoc_missing, missingDoc_decodes,
      (GithubJSONParser_by_shape plainJSON missingDoc).1 missingDoc_missing missingDoc_decodes⟩,
    ⟨numberDoc_other_type, (GithubJSONParser_by_shape plainJSON numberDoc).2 numberDoc_other_type⟩⟩

end ModFile
